import Mathlib

/-!
Verification of the TorGuard IP tracking pipeline (src/torguard.py).

The program is a linear extract-transform-merge-persist pipeline:
- `json_flip_to_list` flattens the provider JSON mapping domain -> [address]
  into a list of (address, domain) observation pairs;
- `download_vpn_servers` accesses the `"resolve"` key of the fetched JSON and
  flattens it (the network/zip layer is outside the scope of these claims);
- `read_existing_ips` loads the persisted CSV into a mapping
  address -> (domain, first_seen, last_seen), empty when the file is missing;
- `update_ip_records` upserts the fresh observations, stamping timestamps;
- `write_ips_to_csv` serializes the mapping back, one row per address.

Embedding choices, mirrored from the Python source:
- Python dicts are insertion-ordered association lists with unique keys;
  `d[k] = v` updates in place when `k` is present and appends otherwise.
- CSV content is modelled at the row/field level: a file is a list of rows,
  each row a list of cell strings.  Python's `csv` module handles quoting and
  framing; on fields free of CSV-special characters (the regime of the
  round-trip claim) it is the identity on cells.  `csv.DictWriter` writes a
  `None` field as the empty cell; `csv.DictReader` pairs the header row with
  each data row, padding short rows with `None` (`restval`) and ignoring
  surplus cells, and raises `KeyError` when a requested column name is absent
  from the header.
- JSON values are an inductive type; Python's iteration and subscription
  semantics (`for k in x`, `x[k]`) are modelled including their `TypeError` /
  `KeyError` / `IndexError` failure modes, since the shape-normalization
  claims turn on exactly those.
- Timestamps are strings in the `YYYY-MM-DD HH:MM:SS` format, whose
  lexicographic (String) order agrees with chronological order.
-/

/-- Python-level errors that the modelled fragments can raise. -/
inductive PyErr where
  | keyError
  | typeError
  | indexError
deriving DecidableEq, Repr

/-- JSON values as produced by `json.loads`. Object fields are kept in
document order; a parsed Python dict has unique keys. -/
inductive Json where
  | null
  | bool (b : Bool)
  | num (n : Int)
  | str (s : String)
  | arr (xs : List Json)
  | obj (kvs : List (String × Json))
deriving Repr

/-- Lookup in a JSON object, first occurrence (Python dicts have unique keys). -/
def olookup (kvs : List (String × Json)) (k : String) : Option Json :=
  (kvs.find? fun p => p.1 = k).map Prod.snd

/-- Python iteration `for v in x`: dict iterates its keys, list its elements,
string its characters (as 1-character strings); other values raise TypeError. -/
def pyIter : Json → Except PyErr (List Json)
  | .obj kvs => .ok (kvs.map fun kv => .str kv.1)
  | .arr xs => .ok xs
  | .str s => .ok (s.data.map fun c => .str (String.mk [c]))
  | _ => .error .typeError

/-- Python list indexing with negative-index wraparound: `xs[n]`. -/
def listIndex (xs : List Json) (n : Int) : Except PyErr Json :=
  let m : Int := if n < 0 then n + xs.length else n
  if 0 ≤ m then
    match xs.get? m.toNat with
    | some v => .ok v
    | none => .error .indexError
  else .error .indexError

/-- Python string indexing `s[n]`, yielding a 1-character string. -/
def strIndex (s : String) (n : Int) : Except PyErr Json :=
  let m : Int := if n < 0 then n + s.data.length else n
  if 0 ≤ m then
    match s.data.get? m.toNat with
    | some c => .ok (.str (String.mk [c]))
    | none => .error .indexError
  else .error .indexError

/-- Python subscription `x[k]`: dict lookup (KeyError when absent, TypeError on
unhashable keys), list/string indexing by integers and booleans, TypeError
otherwise. -/
def pySubscript : Json → Json → Except PyErr Json
  | .obj kvs, .str s =>
      match olookup kvs s with
      | some v => .ok v
      | none => .error .keyError
  | .obj _, .num _ => .error .keyError
  | .obj _, .bool _ => .error .keyError
  | .obj _, .null => .error .keyError
  | .obj _, _ => .error .typeError
  | .arr xs, .num n => listIndex xs n
  | .arr xs, .bool b => listIndex xs (if b then 1 else 0)
  | .arr _, _ => .error .typeError
  | .str s, .num n => strIndex s n
  | .str s, .bool b => strIndex s (if b then 1 else 0)
  | .str _, _ => .error .typeError
  | _, _ => .error .typeError

/-- One level of the comprehension in `json_flip_to_list`: for each `key`
drawn from iterating `old_json`, subscript `old_json[key]`, iterate the
result, and emit one `(val, key)` pair per value, in order; the first error
aborts, exactly as a Python list comprehension evaluates. -/
def flipPairs (old_json : Json) : List Json → Except PyErr (List (Json × Json))
  | [] => .ok []
  | key :: rest =>
      match pySubscript old_json key with
      | .error e => .error e
      | .ok container =>
          match pyIter container with
          | .error e => .error e
          | .ok vals =>
              match flipPairs old_json rest with
              | .error e => .error e
              | .ok others => .ok ((vals.map fun val => (val, key)) ++ others)

/-- `TorGuardIPManager.json_flip_to_list`: the comprehension
`[ {ip_address: val, domain: key} for key in old_json for val in old_json[key] ]`,
modelled as the flat list of `(val, key)` pairs. -/
def json_flip_to_list (old_json : Json) : Except PyErr (List (Json × Json)) :=
  match pyIter old_json with
  | .error e => .error e
  | .ok keys => flipPairs old_json keys

/-- The shape-normalization step of `TorGuardIPManager.download_vpn_servers`:
`json_flip_to_list(json_data["resolve"])`.  Fetching, unzipping and JSON
parsing happen before `json_data` exists and are outside these claims. -/
def download_normalize (json_data : Json) : Except PyErr (List (Json × Json)) :=
  match pySubscript json_data (.str "resolve") with
  | .error e => .error e
  | .ok resolve => json_flip_to_list resolve

/-- One persisted record: the value side of `self.existing_ips[ip]`,
a dict with keys `domain`, `first_seen`, `last_seen`.  Fields are `Option`
because `csv.DictReader` yields `None` for columns missing from a short row. -/
structure IPRecord where
  domain : Option String
  first_seen : Option String
  last_seen : Option String
deriving DecidableEq, Repr

/-- The store `self.existing_ips`: a Python dict from the `ip_address` cell
(`None` when a short row left it missing) to its record, in insertion order. -/
abbrev Store := List (Option String × IPRecord)

/-- One observation entry `{"ip_address": ..., "domain": ...}` as consumed by
`update_ip_records`. -/
structure ObsEntry where
  ip_address : String
  domain : String
deriving DecidableEq, Repr

/-- Python `k in d` on the store. -/
def hasKey (s : Store) (k : Option String) : Bool :=
  s.any fun p => p.1 = k

/-- Python `d[k]` on the store (first — unique — occurrence). -/
def slookup (s : Store) (k : Option String) : Option IPRecord :=
  (List.find? (fun p => p.1 = k) s).map Prod.snd

/-- The key sequence of the store, in insertion order. -/
def skeys (s : Store) : List (Option String) :=
  s.map Prod.fst

/-- `self.existing_ips[ip]["last_seen"] = current_date`: mutate the record held
at key `k` in place, leaving every other entry and all positions unchanged. -/
def setLast (now : String) (k : Option String) (s : Store) : Store :=
  s.map fun p => if p.1 = k then (p.1, { p.2 with last_seen := some now }) else p

/-- The body of the loop in `TorGuardIPManager.update_ip_records` for a single
entry: update `last_seen` when the address is known, insert a fresh record
stamped `now`/`now` otherwise (dict insertion appends). -/
def update_one (now : String) (s : Store) (entry : ObsEntry) : Store :=
  if hasKey s (some entry.ip_address) then
    setLast now (some entry.ip_address) s
  else
    s ++ [(some entry.ip_address, ⟨some entry.domain, some now, some now⟩)]

/-- `TorGuardIPManager.update_ip_records`: fold the loop body over the
observation list; `current_date` is sampled once and passed in as `now`. -/
def update_ip_records (s : Store) (new_ips : List ObsEntry) (now : String) : Store :=
  new_ips.foldl (update_one now) s

/-- Does any observation mention address `a`? -/
def obsHas (new_ips : List ObsEntry) (a : String) : Bool :=
  new_ips.any fun e => e.ip_address = a

/-- The CSV header written and expected by the program. -/
def fieldnames : List String :=
  ["ip_address", "domain", "first_seen", "last_seen"]

/-- `csv.DictWriter` cell rendering: `None` becomes the empty cell. -/
def cellOf : Option String → String
  | some s => s
  | none => ""

/-- One data row as written by `write_ips_to_csv`, in `fieldnames` order. -/
def writeRow (k : Option String) (r : IPRecord) : List String :=
  [cellOf k, cellOf r.domain, cellOf r.first_seen, cellOf r.last_seen]

/-- `TorGuardIPManager.write_ips_to_csv`: header row, then one row per store
entry in store (insertion) order. -/
def write_ips_to_csv (s : Store) : List (List String) :=
  fieldnames :: s.map fun p => writeRow p.1 p.2

/-- `csv.DictReader` row padding: cells beyond the header length are dropped
(they go to `restkey`, which the program never reads) and missing cells become
`None` (`restval`). The result always has the header's length. -/
def padRow (header row : List String) : List (Option String) :=
  (row.map some).take header.length ++ List.replicate (header.length - row.length) none

/-- The row dict built by `csv.DictReader`: header names paired with padded
cells. -/
def dictRow (header row : List String) : List (String × Option String) :=
  header.zip (padRow header row)

/-- Python dict lookup on `dict(zip(header, row))`: with duplicate header
names the later pair wins, hence the search from the right. -/
def lookupLast (kvs : List (String × Option String)) (k : String) : Option (Option String) :=
  (kvs.reverse.find? fun p => p.1 = k).map Prod.snd

/-- `row[field]` on a `DictReader` row: `KeyError` when `field` is not a
column name of the header. -/
def rowGet (header row : List String) (field : String) : Except PyErr (Option String) :=
  match lookupLast (dictRow header row) field with
  | some v => .ok v
  | none => .error .keyError

/-- Python dict assignment `d[k] = v`: overwrite in place when present,
append otherwise. -/
def dinsert (s : Store) (k : Option String) (v : IPRecord) : Store :=
  if hasKey s k then
    s.map fun p => if p.1 = k then (p.1, v) else p
  else
    s ++ [(k, v)]

/-- The body of the `for row in reader` loop in `read_existing_ips`.
`DictReader` skips blank rows; otherwise the record dict literal is evaluated
(fields `first_seen`, `last_seen`, `domain` in source order), then
`row["ip_address"]` is read and the store entry assigned. -/
def readRow (header : List String) (acc : Store) (row : List String) :
    Except PyErr Store :=
  if row = [] then .ok acc
  else
    match rowGet header row "first_seen" with
    | .error e => .error e
    | .ok first =>
        match rowGet header row "last_seen" with
        | .error e => .error e
        | .ok last =>
            match rowGet header row "domain" with
            | .error e => .error e
            | .ok dom =>
                match rowGet header row "ip_address" with
                | .error e => .error e
                | .ok ip => .ok (dinsert acc ip ⟨dom, first, last⟩)

/-- Iterate `readRow` over the data rows. -/
def readRows (header : List String) (acc : Store) :
    List (List String) → Except PyErr Store
  | [] => .ok acc
  | row :: rest =>
      match readRow header acc row with
      | .error e => .error e
      | .ok acc2 => readRows header acc2 rest

/-- Parse a whole CSV file (as rows): the first row is the header taken by
`csv.DictReader`, the rest are data rows; an empty file yields an empty store. -/
def read_rows (rows : List (List String)) : Except PyErr Store :=
  match rows with
  | [] => .ok []
  | header :: dataRows => readRows header [] dataRows

/-- `TorGuardIPManager.read_existing_ips`: `none` models the output file not
existing, the one condition caught (`except FileNotFoundError: pass`), which
leaves the store empty; with an existing file the rows are parsed and any
error propagates uncaught. -/
def read_existing_ips (file : Option (List (List String))) : Except PyErr Store :=
  match file with
  | none => .ok []
  | some rows => read_rows rows

/-- `TorGuardIPManager.process`: fetch (whose normalized result, or failure,
is `fetched`), load the existing store, merge, write.  No step catches errors
raised by another. -/
def process (fetched : Except PyErr (List ObsEntry))
    (file : Option (List (List String))) (now : String) :
    Except PyErr (Store × List (List String)) :=
  match fetched with
  | .error e => .error e
  | .ok new_ips =>
      match read_existing_ips file with
      | .error e => .error e
      | .ok store =>
          let merged := update_ip_records store new_ips now
          .ok (merged, write_ips_to_csv merged)

/-! ### Store lemmas -/

theorem slookup_eq_none_iff (s : Store) (k : Option String) :
    slookup s k = none ↔ hasKey s k = false := by
  simp [slookup, hasKey, List.find?_eq_none, List.any_eq_true, Option.map_eq_none]

theorem hasKey_of_slookup (s : Store) (k : Option String) (r : IPRecord)
    (h : slookup s k = some r) : hasKey s k = true := by
  by_contra hc
  have : slookup s k = none := (slookup_eq_none_iff s k).2 (by simpa using hc)
  simp [this] at h

theorem slookup_setLast_self (now : String) (k : Option String) :
    ∀ (s : Store) (r : IPRecord), slookup s k = some r →
      slookup (setLast now k s) k = some { r with last_seen := some now } := by
  intro s
  induction s with
  | nil => intro r h; simp [slookup] at h
  | cons p t ih =>
      intro r h
      by_cases hp : p.1 = k
      · simp [slookup, List.find?_cons, hp] at h
        simp [setLast, slookup, List.find?_cons, hp, ← h]
      · simp [slookup, List.find?_cons, hp] at h
        have := ih r (by simpa [slookup] using h)
        simpa [setLast, slookup, List.find?_cons, hp] using this


theorem slookup_cons (p : Option String × IPRecord) (t : Store) (k : Option String) :
    slookup (p :: t) k = if p.1 = k then some p.2 else slookup t k := by
  by_cases h : p.1 = k <;> simp [slookup, List.find?_cons, h]

theorem setLast_cons (now : String) (k : Option String)
    (p : Option String × IPRecord) (t : Store) :
    setLast now k (p :: t) =
      (if p.1 = k then (p.1, { p.2 with last_seen := some now }) else p)
        :: setLast now k t := rfl

theorem slookup_setLast_ne (now : String) (k k2 : Option String) (s : Store)
    (h : k2 ≠ k) : slookup (setLast now k s) k2 = slookup s k2 := by
  induction s with
  | nil => rfl
  | cons p t ih =>
      rw [setLast_cons]
      by_cases hp : p.1 = k
      · have hne : ¬ p.1 = k2 := by rw [hp]; exact fun hx => h hx.symm
        rw [if_pos hp, slookup_cons, slookup_cons, if_neg hne, if_neg hne, ih]
      · rw [if_neg hp, slookup_cons, slookup_cons, ih]

theorem slookup_append_one (s : Store) (k k2 : Option String) (v : IPRecord) :
    slookup (s ++ [(k, v)]) k2 =
      match slookup s k2 with
      | some r => some r
      | none => if k2 = k then some v else none := by
  induction s with
  | nil =>
      by_cases h : k = k2
      · simp [slookup, List.find?_cons, h]
      · have h2 : ¬ (k2 = k) := fun hx => h hx.symm
        simp [slookup, List.find?_cons, h, h2]
  | cons p t ih =>
      rw [List.cons_append, slookup_cons, slookup_cons]
      by_cases hp : p.1 = k2
      · rw [if_pos hp, if_pos hp]
      · rw [if_neg hp, if_neg hp, ih]

theorem skeys_setLast (now : String) (k : Option String) (s : Store) :
    skeys (setLast now k s) = skeys s := by
  induction s with
  | nil => rfl
  | cons p t ih =>
      rw [setLast_cons]
      by_cases hp : p.1 = k
      · rw [if_pos hp]; simpa [skeys] using ih
      · rw [if_neg hp]; simpa [skeys] using ih

theorem hasKey_iff_skeys (s : Store) (k : Option String) :
    hasKey s k = true ↔ k ∈ skeys s := by
  simp [hasKey, skeys, List.any_eq_true]

/-! ### Merge lemmas -/

theorem update_ip_records_cons (s : Store) (e : ObsEntry) (rest : List ObsEntry)
    (now : String) :
    update_ip_records s (e :: rest) now
      = update_ip_records (update_one now s e) rest now := rfl

theorem slookup_update_one_ne (now : String) (s : Store) (e : ObsEntry)
    (a : String) (h : e.ip_address ≠ a) :
    slookup (update_one now s e) (some a) = slookup s (some a) := by
  have hne : (some a : Option String) ≠ some e.ip_address := by
    intro hx
    exact h (Option.some.inj hx).symm
  unfold update_one
  by_cases hk : hasKey s (some e.ip_address)
  · rw [if_pos hk]
    exact slookup_setLast_ne now _ _ s hne
  · rw [if_neg hk, slookup_append_one]
    cases hcase : slookup s (some a) with
    | some r => rfl
    | none => simp [hne]

theorem hasKey_update_one_ne (now : String) (s : Store) (e : ObsEntry)
    (a : String) (h : e.ip_address ≠ a) :
    hasKey (update_one now s e) (some a) = hasKey s (some a) := by
  by_cases hk : hasKey s (some a)
  · rw [hk]
    by_contra hc
    have h0 : hasKey (update_one now s e) (some a) = false := by
      cases hx : hasKey (update_one now s e) (some a) with
      | true => exact absurd hx hc
      | false => rfl
    have := (slookup_eq_none_iff _ _).2 h0
    rw [slookup_update_one_ne now s e a h] at this
    rw [(slookup_eq_none_iff s (some a)).1 this] at hk
    exact absurd hk (by simp)
  · have hk0 : hasKey s (some a) = false := by
      cases hx : hasKey s (some a) with
      | true => exact absurd hx hk
      | false => rfl
    rw [hk0]
    have : slookup (update_one now s e) (some a) = none := by
      rw [slookup_update_one_ne now s e a h]
      exact (slookup_eq_none_iff s (some a)).2 hk0
    exact (slookup_eq_none_iff _ _).1 this

theorem slookup_update_of_present (now : String) :
    ∀ (new_ips : List ObsEntry) (s : Store) (a : String) (r : IPRecord),
      slookup s (some a) = some r →
      slookup (update_ip_records s new_ips now) (some a) =
        some ⟨r.domain, r.first_seen,
              if obsHas new_ips a then some now else r.last_seen⟩ := by
  intro new_ips
  induction new_ips with
  | nil =>
      intro s a r h
      simpa [update_ip_records, obsHas] using h
  | cons e rest ih =>
      intro s a r h
      rw [update_ip_records_cons]
      by_cases he : e.ip_address = a
      · have hk : hasKey s (some e.ip_address) = true := by
          rw [he]; exact hasKey_of_slookup s (some a) r h
        have h1 : update_one now s e = setLast now (some e.ip_address) s := by
          unfold update_one; rw [if_pos hk]
        have h2 : slookup (update_one now s e) (some a)
            = some { r with last_seen := some now } := by
          rw [h1, he]
          exact slookup_setLast_self now (some a) s r h
        have h3 := ih (update_one now s e) a { r with last_seen := some now } h2
        rw [h3]
        have h4 : obsHas (e :: rest) a = true := by simp [obsHas, he]
        rw [h4]
        by_cases hr : obsHas rest a = true
        · simp [hr]
        · simp [hr]
      · have h2 : slookup (update_one now s e) (some a) = some r := by
          rw [slookup_update_one_ne now s e a he]; exact h
        have h3 := ih (update_one now s e) a r h2
        rw [h3]
        have h4 : obsHas (e :: rest) a = obsHas rest a := by
          simp [obsHas, he]
        rw [h4]

theorem slookup_update_of_absent (now : String) :
    ∀ (new_ips : List ObsEntry) (s : Store) (a : String),
      hasKey s (some a) = false →
      slookup (update_ip_records s new_ips now) (some a) =
        match new_ips.find? (fun e => e.ip_address = a) with
        | some e => some ⟨some e.domain, some now, some now⟩
        | none => none := by
  intro new_ips
  induction new_ips with
  | nil =>
      intro s a h
      simpa [update_ip_records, List.find?] using (slookup_eq_none_iff s (some a)).2 h
  | cons e rest ih =>
      intro s a h
      rw [update_ip_records_cons]
      by_cases he : e.ip_address = a
      · have hk : hasKey s (some e.ip_address) = false := by rw [he]; exact h
        have h1 : update_one now s e
            = s ++ [(some e.ip_address, ⟨some e.domain, some now, some now⟩)] := by
          unfold update_one; rw [hk]; simp
        have h2 : slookup (update_one now s e) (some a)
            = some ⟨some e.domain, some now, some now⟩ := by
          rw [h1, slookup_append_one, (slookup_eq_none_iff s (some a)).2 h]
          simp [he]
        have h3 := slookup_update_of_present now rest (update_one now s e) a
          ⟨some e.domain, some now, some now⟩ h2
        rw [h3]
        have h4 : List.find? (fun x => x.ip_address = a) (e :: rest) = some e := by
          simp [List.find?_cons, he]
        rw [h4]
        by_cases hr : obsHas rest a = true
        · simp [hr]
        · simp [hr]
      · have h2 : hasKey (update_one now s e) (some a) = false := by
          rw [hasKey_update_one_ne now s e a he]; exact h
        have h3 := ih (update_one now s e) a h2
        rw [h3]
        have h4 : List.find? (fun x => x.ip_address = a) (e :: rest)
            = List.find? (fun x => x.ip_address = a) rest := by
          simp [List.find?_cons, he]
        rw [h4]

theorem hasKey_update_one_mono (now : String) (s : Store) (e : ObsEntry)
    (k : Option String) (h : hasKey s k = true) :
    hasKey (update_one now s e) k = true := by
  unfold update_one
  by_cases hk : hasKey s (some e.ip_address)
  · rw [if_pos hk, hasKey_iff_skeys, skeys_setLast]
    exact (hasKey_iff_skeys s k).1 h
  · rw [if_neg hk, hasKey_iff_skeys]
    have : skeys (s ++ [(some e.ip_address, ⟨some e.domain, some now, some now⟩)])
        = skeys s ++ [some e.ip_address] := by
      simp [skeys]
    rw [this]
    exact List.mem_append_left _ ((hasKey_iff_skeys s k).1 h)

theorem hasKey_update_one_self (now : String) (s : Store) (e : ObsEntry) :
    hasKey (update_one now s e) (some e.ip_address) = true := by
  unfold update_one
  by_cases hk : hasKey s (some e.ip_address)
  · rw [if_pos hk, hasKey_iff_skeys, skeys_setLast]
    exact (hasKey_iff_skeys s _).1 hk
  · rw [if_neg hk, hasKey_iff_skeys]
    have : skeys (s ++ [(some e.ip_address, ⟨some e.domain, some now, some now⟩)])
        = skeys s ++ [some e.ip_address] := by
      simp [skeys]
    rw [this]
    simp

theorem hasKey_update_mono (now : String) :
    ∀ (new_ips : List ObsEntry) (s : Store) (k : Option String),
      hasKey s k = true → hasKey (update_ip_records s new_ips now) k = true := by
  intro new_ips
  induction new_ips with
  | nil => intro s k h; exact h
  | cons e rest ih =>
      intro s k h
      rw [update_ip_records_cons]
      exact ih (update_one now s e) k (hasKey_update_one_mono now s e k h)

theorem observed_hasKey_update (now : String) :
    ∀ (new_ips : List ObsEntry) (s : Store) (e : ObsEntry), e ∈ new_ips →
      hasKey (update_ip_records s new_ips now) (some e.ip_address) = true := by
  intro new_ips
  induction new_ips with
  | nil => intro s e h; cases h
  | cons e0 rest ih =>
      intro s e h
      rw [update_ip_records_cons]
      cases h with
      | head =>
          exact hasKey_update_mono now rest (update_one now s e0) (some e0.ip_address)
            (hasKey_update_one_self now s e0)
      | tail _ hmem => exact ih (update_one now s e0) e hmem

theorem skeys_update_of_all_present (now : String) :
    ∀ (new_ips : List ObsEntry) (s : Store),
      (∀ e ∈ new_ips, hasKey s (some e.ip_address) = true) →
      skeys (update_ip_records s new_ips now) = skeys s := by
  intro new_ips
  induction new_ips with
  | nil => intro s _; rfl
  | cons e rest ih =>
      intro s h
      rw [update_ip_records_cons]
      have hk : hasKey s (some e.ip_address) = true := h e (List.mem_cons_self e rest)
      have h1 : update_one now s e = setLast now (some e.ip_address) s := by
        unfold update_one; rw [if_pos hk]
      have h2 : ∀ x ∈ rest, hasKey (update_one now s e) (some x.ip_address) = true := by
        intro x hx
        rw [h1, hasKey_iff_skeys, skeys_setLast, ← hasKey_iff_skeys]
        exact h x (List.mem_cons_of_mem e hx)
      rw [ih (update_one now s e) h2, h1, skeys_setLast]

theorem length_update_of_all_present (now : String) (new_ips : List ObsEntry)
    (s : Store) (h : ∀ e ∈ new_ips, hasKey s (some e.ip_address) = true) :
    (update_ip_records s new_ips now).length = s.length := by
  have := skeys_update_of_all_present now new_ips s h
  have h1 : (skeys (update_ip_records s new_ips now)).length = (skeys s).length := by
    rw [this]
  simpa [skeys] using h1

/-! ### Timestamp-order invariant -/

/-- Lexicographic order on character lists, by code point. -/
def charsLE : List Char → List Char → Bool
  | [], _ => true
  | _ :: _, [] => false
  | a :: as, b :: bs =>
      if a.toNat < b.toNat then true
      else if b.toNat < a.toNat then false
      else charsLE as bs

/-- Lexicographic order on strings; on the fixed-width `YYYY-MM-DD HH:MM:SS`
timestamp format it coincides with chronological order. -/
def strLE (a b : String) : Bool :=
  charsLE a.data b.data

theorem charsLE_refl : ∀ cs : List Char, charsLE cs cs = true := by
  intro cs
  induction cs with
  | nil => rfl
  | cons a as ih => simp [charsLE, ih]

theorem strLE_refl (a : String) : strLE a a = true :=
  charsLE_refl a.data

/-- Order on optional timestamps: vacuously true when either side is `None`
(a field a malformed row left unset carries no timestamp to compare). -/
def optLE : Option String → Option String → Bool
  | some a, some b => strLE a b
  | _, _ => true

/-- The record invariant of the spec: `first_seen <= last_seen`, timestamps
compared as strings (lexicographic order agrees with chronological order for
the fixed `YYYY-MM-DD HH:MM:SS` format). -/
def recLE (r : IPRecord) : Bool :=
  optLE r.first_seen r.last_seen

/-- Both timestamps of the record are at most `now`. -/
def stampLE (r : IPRecord) (now : String) : Bool :=
  optLE r.first_seen (some now) && optLE r.last_seen (some now)

theorem inv_update_one (now : String) (s : Store) (e : ObsEntry)
    (h : ∀ p ∈ s, stampLE p.2 now = true ∧ recLE p.2 = true) :
    ∀ p ∈ update_one now s e, stampLE p.2 now = true ∧ recLE p.2 = true := by
  intro p hp
  unfold update_one at hp
  by_cases hk : hasKey s (some e.ip_address)
  · rw [if_pos hk] at hp
    unfold setLast at hp
    rcases List.mem_map.1 hp with ⟨q, hq, hfq⟩
    rcases h q hq with ⟨hs, hr⟩
    by_cases hq1 : q.1 = some e.ip_address
    · rw [if_pos hq1] at hfq
      rw [← hfq]
      refine ⟨?_, ?_⟩
      · simp only [stampLE] at hs ⊢
        simp only [Bool.and_eq_true] at hs ⊢
        exact ⟨hs.1, by simp [optLE, strLE_refl]⟩
      · have hs2 : optLE q.2.first_seen (some now) = true
            ∧ optLE q.2.last_seen (some now) = true := by
          simpa [stampLE, Bool.and_eq_true] using hs
        simpa [recLE] using hs2.1
    · rw [if_neg hq1] at hfq
      rw [← hfq]
      exact ⟨hs, hr⟩
  · rw [if_neg hk] at hp
    rcases List.mem_append.1 hp with hold | hnew
    · exact h p hold
    · have : p = (some e.ip_address, ⟨some e.domain, some now, some now⟩) := by
        simpa using hnew
      rw [this]
      constructor
      · simp [stampLE, optLE, strLE_refl]
      · simp [recLE, optLE, strLE_refl]

theorem inv_update (now : String) :
    ∀ (new_ips : List ObsEntry) (s : Store),
      (∀ p ∈ s, stampLE p.2 now = true ∧ recLE p.2 = true) →
      ∀ p ∈ update_ip_records s new_ips now,
        stampLE p.2 now = true ∧ recLE p.2 = true := by
  intro new_ips
  induction new_ips with
  | nil => intro s h; exact h
  | cons e rest ih =>
      intro s h
      rw [update_ip_records_cons]
      exact ih (update_one now s e) (inv_update_one now s e h)

/-! ### Flatten lemmas -/

theorem olookup_cons (q : String × Json) (t : List (String × Json)) (k : String) :
    olookup (q :: t) k = if q.1 = k then some q.2 else olookup t k := by
  by_cases h : q.1 = k <;> simp [olookup, List.find?_cons, h]

/-- The provider mapping `{domain: [address, ...], ...}` as a JSON object. -/
def jsonOfResolve (m : List (String × List String)) : Json :=
  Json.obj (m.map fun p => (p.1, Json.arr (p.2.map Json.str)))

theorem olookup_jsonOfResolve :
    ∀ (m : List (String × List String)), (m.map Prod.fst).Nodup →
      ∀ p ∈ m, olookup (m.map fun q => (q.1, Json.arr (q.2.map Json.str))) p.1
        = some (Json.arr (p.2.map Json.str)) := by
  intro m
  induction m with
  | nil => intro _ p hp; cases hp
  | cons q t ih =>
      intro hnd p hp
      rw [List.map_cons] at hnd ⊢
      rw [olookup_cons]
      rcases List.mem_cons.1 hp with hq | hpt
      · rw [hq]; simp
      · have hq1 : q.1 ≠ p.1 := by
          intro he
          have hmem : p.1 ∈ t.map Prod.fst := List.mem_map.2 ⟨p, hpt, rfl⟩
          exact (List.nodup_cons.1 hnd).1 (he ▸ hmem)
        rw [if_neg hq1]
        exact ih (List.nodup_cons.1 hnd).2 p hpt

theorem flipPairs_obj (kvs : List (String × Json)) :
    ∀ (m : List (String × List String)),
      (∀ p ∈ m, olookup kvs p.1 = some (Json.arr (p.2.map Json.str))) →
      flipPairs (Json.obj kvs) (m.map fun p => Json.str p.1)
        = .ok (m.flatMap fun p => p.2.map fun a => (Json.str a, Json.str p.1)) := by
  intro m
  induction m with
  | nil => intro _; rfl
  | cons p t ih =>
      intro h
      have hp := h p (List.mem_cons_self p t)
      have hsub : pySubscript (Json.obj kvs) (Json.str p.1)
          = Except.ok (Json.arr (p.2.map Json.str)) := by
        simp [pySubscript, hp]
      have ht : ∀ q ∈ t, olookup kvs q.1 = some (Json.arr (q.2.map Json.str)) :=
        fun q hq => h q (List.mem_cons_of_mem p hq)
      have hstep : flipPairs (Json.obj kvs) ((p :: t).map fun q => Json.str q.1)
          = match pySubscript (Json.obj kvs) (Json.str p.1) with
            | Except.error e => Except.error e
            | Except.ok container =>
                match pyIter container with
                | Except.error e => Except.error e
                | Except.ok vals =>
                    match flipPairs (Json.obj kvs) (t.map fun q => Json.str q.1) with
                    | Except.error e => Except.error e
                    | Except.ok others =>
                        Except.ok ((vals.map fun val => (val, Json.str p.1)) ++ others) := by
        rw [List.map_cons]
        rfl
      rw [hstep, hsub, ih ht]
      show Except.ok ((((p.2.map Json.str).map fun val => (val, Json.str p.1)) ++
        t.flatMap fun q => q.2.map fun a => (Json.str a, Json.str q.1))) = _
      rw [List.flatMap_cons, List.map_map]
      rfl

/-- `json_flip_to_list` on a well-formed resolve object: every pair appears,
once per occurrence, in document order. -/
theorem json_flip_on_resolve (m : List (String × List String))
    (hnd : (m.map Prod.fst).Nodup) :
    json_flip_to_list (jsonOfResolve m)
      = .ok (m.flatMap fun p => p.2.map fun a => (Json.str a, Json.str p.1)) := by
  have hiter : pyIter (jsonOfResolve m) = Except.ok (m.map fun p => Json.str p.1) := by
    show Except.ok ((m.map fun p => (p.1, Json.arr (p.2.map Json.str))).map
      fun kv => Json.str kv.1) = _
    rw [List.map_map]
    rfl
  have hstep : json_flip_to_list (jsonOfResolve m)
      = match pyIter (jsonOfResolve m) with
        | Except.error e => Except.error e
        | Except.ok keys => flipPairs (jsonOfResolve m) keys := rfl
  rw [hstep, hiter]
  exact flipPairs_obj _ m (olookup_jsonOfResolve m hnd)

/-! ### CSV lemmas -/

theorem padRow_length (header row : List String) :
    (padRow header row).length = header.length := by
  simp [padRow]
  omega

theorem rowGet_isOk (header row : List String) (f : String) (hf : f ∈ header) :
    ∃ v, rowGet header row f = .ok v := by
  have hlen : header.length ≤ (padRow header row).length := by
    rw [padRow_length]
  have hfst : (header.zip (padRow header row)).map Prod.fst = header :=
    List.map_fst_zip header (padRow header row) hlen
  have hmem : ∃ q ∈ (header.zip (padRow header row)).reverse, q.1 = f := by
    have : f ∈ (header.zip (padRow header row)).map Prod.fst := by rw [hfst]; exact hf
    rcases List.mem_map.1 this with ⟨q, hq, hqf⟩
    exact ⟨q, List.mem_reverse.2 hq, hqf⟩
  have hsome : ((header.zip (padRow header row)).reverse.find? fun p => p.1 = f).isSome := by
    apply List.find?_isSome.2
    rcases hmem with ⟨q, hq, hqf⟩
    exact ⟨q, hq, by simp [hqf]⟩
  rcases Option.isSome_iff_exists.1 hsome with ⟨q, hq⟩
  exact ⟨q.2, by simp [rowGet, lookupLast, dictRow, hq]⟩

theorem readRow_fieldnames_isOk (acc : Store) (row : List String) :
    ∃ s2, readRow fieldnames acc row = .ok s2 := by
  by_cases hrow : row = []
  · exact ⟨acc, by simp [readRow, hrow]⟩
  · rcases rowGet_isOk fieldnames row "first_seen" (by simp [fieldnames]) with ⟨v1, h1⟩
    rcases rowGet_isOk fieldnames row "last_seen" (by simp [fieldnames]) with ⟨v2, h2⟩
    rcases rowGet_isOk fieldnames row "domain" (by simp [fieldnames]) with ⟨v3, h3⟩
    rcases rowGet_isOk fieldnames row "ip_address" (by simp [fieldnames]) with ⟨v4, h4⟩
    refine ⟨dinsert acc v4 ⟨v3, v1, v2⟩, ?_⟩
    rw [readRow, if_neg hrow, h1, h2, h3, h4]

theorem readRows_fieldnames_isOk (rows : List (List String)) :
    ∀ acc : Store, ∃ s2, readRows fieldnames acc rows = .ok s2 := by
  induction rows with
  | nil => intro acc; exact ⟨acc, rfl⟩
  | cons row rest ih =>
      intro acc
      rcases readRow_fieldnames_isOk acc row with ⟨s2, h2⟩
      rcases ih s2 with ⟨s3, h3⟩
      exact ⟨s3, by rw [readRows, h2]; exact h3⟩

theorem readRow_written (acc : Store) (c0 c1 c2 c3 : String) :
    readRow fieldnames acc [c0, c1, c2, c3]
      = .ok (dinsert acc (some c0) ⟨some c1, some c2, some c3⟩) := by
  rfl

/-- A cell value that survives the CSV layer verbatim: a present, non-empty
string containing no CSV-special character (comma, double quote, CR, LF). -/
def cleanCell : Option String → Bool
  | none => false
  | some v =>
      v ≠ "" && v.data.all fun ch => !(ch = ',' || ch = '"' || ch = '\n' || ch = '\r')

theorem cleanCell_isSome (c : Option String) (h : cleanCell c = true) :
    ∃ x, c = some x := by
  cases c with
  | none => simp [cleanCell] at h
  | some v => exact ⟨v, rfl⟩

/-- Every store entry has all four cells clean. -/
def cleanStore (s : Store) : Bool :=
  s.all fun p =>
    cleanCell p.1 && cleanCell p.2.domain && cleanCell p.2.first_seen
      && cleanCell p.2.last_seen

theorem skeys_append_one (acc : Store) (p : Option String × IPRecord) :
    skeys (acc ++ [p]) = skeys acc ++ [p.1] := by
  simp [skeys]

theorem roundtrip_aux :
    ∀ (s acc : Store),
      (∀ k ∈ skeys s, k ∉ skeys acc) →
      (skeys s).Nodup →
      (∀ p ∈ s, p.1.isSome ∧ p.2.domain.isSome ∧ p.2.first_seen.isSome
        ∧ p.2.last_seen.isSome) →
      readRows fieldnames acc (s.map fun p => writeRow p.1 p.2) = .ok (acc ++ s) := by
  intro s
  induction s with
  | nil => intro acc _ _ _; simp [readRows]
  | cons p t ih =>
      obtain ⟨k1, rd, rf, rl⟩ := p
      intro acc hdisj hnd hsome
      rcases hsome (k1, ⟨rd, rf, rl⟩) (List.mem_cons_self _ t) with ⟨h1, h2, h3, h4⟩
      rcases Option.isSome_iff_exists.1 h1 with ⟨k, hk⟩
      rcases Option.isSome_iff_exists.1 h2 with ⟨d, hd⟩
      rcases Option.isSome_iff_exists.1 h3 with ⟨f, hf⟩
      rcases Option.isSome_iff_exists.1 h4 with ⟨l, hl⟩
      subst hk hd hf hl
      rw [List.map_cons, readRows]
      have hrow : writeRow (some k) (⟨some d, some f, some l⟩ : IPRecord)
          = [k, d, f, l] := rfl
      rw [hrow, readRow_written]
      have hnd2 : (some k : Option String) ∉ skeys t ∧ (skeys t).Nodup := by
        have : skeys ((some k, (⟨some d, some f, some l⟩ : IPRecord)) :: t)
            = some k :: skeys t := rfl
        rw [this] at hnd
        exact List.nodup_cons.1 hnd
      have hnotin : hasKey acc (some k) = false := by
        have hmem : (some k : Option String)
            ∈ skeys ((some k, (⟨some d, some f, some l⟩ : IPRecord)) :: t) := by
          simp [skeys]
        have hni := hdisj (some k) hmem
        cases hx : hasKey acc (some k) with
        | false => rfl
        | true => exact absurd ((hasKey_iff_skeys acc (some k)).1 hx) hni
      have hins : dinsert acc (some k) ⟨some d, some f, some l⟩
          = acc ++ [(some k, ⟨some d, some f, some l⟩)] := by
        unfold dinsert
        rw [hnotin]
        simp
      rw [hins]
      have hstep : (acc ++ [((some k : Option String),
            (⟨some d, some f, some l⟩ : IPRecord))]) ++ t
          = acc ++ ((some k, ⟨some d, some f, some l⟩) :: t) := by
        rw [List.append_assoc]
        rfl
      rw [← hstep]
      apply ih
      · intro k2 hk2
        rw [skeys_append_one]
        intro hk2mem
        rcases List.mem_append.1 hk2mem with hacc | hhd
        · have hk2s : k2 ∈ skeys ((some k, (⟨some d, some f, some l⟩ : IPRecord)) :: t) := by
            have : skeys ((some k, (⟨some d, some f, some l⟩ : IPRecord)) :: t)
                = some k :: skeys t := rfl
            rw [this]
            exact List.mem_cons_of_mem _ hk2
          exact hdisj k2 hk2s hacc
        · have hk2p : k2 = some k := by simpa using hhd
          rw [hk2p] at hk2
          exact hnd2.1 hk2
      · exact hnd2.2
      · exact fun q hq => hsome q (List.mem_cons_of_mem _ hq)

/-! ### Claim theorems -/

/-- Claim C1, counterexample: the claim asserts that after a merge EVERY
address present in the store beforehand has `last_seen = now`, for every
observation list.  With the empty observation list the loop body never runs:
the address "1.2.3.4" is present before the merge, yet its `last_seen` is
still "T0" after merging with `now = "T1"`, and "T0" is not "T1". -/
theorem C1_counterexample :
    slookup (update_ip_records [(some "1.2.3.4",
        ⟨some "a.example.com", some "T0", some "T0"⟩)] [] "T1") (some "1.2.3.4")
      = some ⟨some "a.example.com", some "T0", some "T0"⟩
    ∧ (some "T0" : Option String) ≠ some "T1" := by
  exact ⟨rfl, by decide⟩

/-- Claim C1 (amended): after a merge, every address present in the store
before the merge keeps its `domain` and `first_seen` exactly; its `last_seen`
becomes `now` when the address appears in the observation list and is
unchanged otherwise. -/
theorem C1_amended (s : Store) (new_ips : List ObsEntry) (now : String)
    (a : String) (r : IPRecord) (h : slookup s (some a) = some r) :
    slookup (update_ip_records s new_ips now) (some a)
      = some ⟨r.domain, r.first_seen,
          if obsHas new_ips a then some now else r.last_seen⟩ :=
  slookup_update_of_present now new_ips s a r h

/-- Witness for C1 (amended) at a concrete store and observation list. -/
theorem C1_witness :
    slookup (update_ip_records [(some "1.2.3.4",
        ⟨some "a.example.com", some "T0", some "T0"⟩)]
        [⟨"1.2.3.4", "b.example.com"⟩] "T1") (some "1.2.3.4")
      = some ⟨some "a.example.com", some "T0", some "T1"⟩ := by
  have h := C1_amended [(some "1.2.3.4", ⟨some "a.example.com", some "T0", some "T0"⟩)]
    [⟨"1.2.3.4", "b.example.com"⟩] "T1" "1.2.3.4"
    ⟨some "a.example.com", some "T0", some "T0"⟩ rfl
  rw [show obsHas [(⟨"1.2.3.4", "b.example.com"⟩ : ObsEntry)] "1.2.3.4" = true from rfl]
    at h
  simpa using h

/-- Claim C2: every address of the observation list that is absent from the
store before the merge is present afterwards, with the observed domain and
`first_seen = last_seen = now`. -/
theorem C2_new_addresses (s : Store) (new_ips : List ObsEntry) (now : String)
    (a : String) (h1 : hasKey s (some a) = false) (h2 : obsHas new_ips a = true) :
    ∃ d, (∃ e ∈ new_ips, e.ip_address = a ∧ e.domain = d) ∧
      slookup (update_ip_records s new_ips now) (some a)
        = some ⟨some d, some now, some now⟩ := by
  have h2b : new_ips.any (fun e => e.ip_address = a) = true := h2
  have hfind : ∃ e, new_ips.find? (fun e => e.ip_address = a) = some e := by
    have hsome : (new_ips.find? fun e => e.ip_address = a).isSome := by
      apply List.find?_isSome.2
      rcases List.any_eq_true.1 h2b with ⟨e, he, hpe⟩
      exact ⟨e, he, hpe⟩
    exact Option.isSome_iff_exists.1 hsome
  rcases hfind with ⟨e, he⟩
  have hmem := List.mem_of_find?_eq_some he
  have hpe : e.ip_address = a := by simpa using List.find?_some he
  refine ⟨e.domain, ⟨e, hmem, hpe, rfl⟩, ?_⟩
  have habs := slookup_update_of_absent now new_ips s a h1
  rw [he] at habs
  exact habs

/-- Witness for C2: empty store, one observation, merged at "T1". -/
theorem C2_witness :
    ∃ d, (∃ e ∈ [(⟨"1.2.3.4", "a.example.com"⟩ : ObsEntry)],
        e.ip_address = "1.2.3.4" ∧ e.domain = d) ∧
      slookup (update_ip_records [] [⟨"1.2.3.4", "a.example.com"⟩] "T1")
          (some "1.2.3.4")
        = some ⟨some d, some "T1", some "T1"⟩ :=
  C2_new_addresses [] [⟨"1.2.3.4", "a.example.com"⟩] "T1" "1.2.3.4" rfl rfl

/-- Claim C3: saving a store (unique keys, all four cells present, non-empty,
CSV-special-free) and loading the file back yields the store unchanged. -/
theorem C3_roundtrip (s : Store) (hnd : (skeys s).Nodup)
    (hclean : cleanStore s = true) :
    read_rows (write_ips_to_csv s) = .ok s := by
  have hsome : ∀ p ∈ s, p.1.isSome ∧ p.2.domain.isSome ∧ p.2.first_seen.isSome
      ∧ p.2.last_seen.isSome := by
    intro p hp
    have hall := List.all_eq_true.1 hclean p hp
    simp only [Bool.and_eq_true] at hall
    rcases hall with ⟨⟨⟨c1, c2⟩, c3⟩, c4⟩
    refine ⟨?_, ?_, ?_, ?_⟩
    · rcases cleanCell_isSome _ c1 with ⟨x, hx⟩; simp [hx]
    · rcases cleanCell_isSome _ c2 with ⟨x, hx⟩; simp [hx]
    · rcases cleanCell_isSome _ c3 with ⟨x, hx⟩; simp [hx]
    · rcases cleanCell_isSome _ c4 with ⟨x, hx⟩; simp [hx]
  have h := roundtrip_aux s [] (fun k _ hk => by simp [skeys] at hk) hnd hsome
  show readRows fieldnames [] (s.map fun p => writeRow p.1 p.2) = Except.ok s
  simpa using h

/-- Witness for C3 at a two-record store. -/
theorem C3_witness :
    read_rows (write_ips_to_csv [(some "1.2.3.4",
        ⟨some "a.example.com", some "2024-01-01 00:00:00", some "2024-01-02 00:00:00"⟩),
      (some "5.6.7.8",
        ⟨some "b.example.com", some "2024-01-02 00:00:00", some "2024-01-02 00:00:00"⟩)])
      = .ok [(some "1.2.3.4",
        ⟨some "a.example.com", some "2024-01-01 00:00:00", some "2024-01-02 00:00:00"⟩),
      (some "5.6.7.8",
        ⟨some "b.example.com", some "2024-01-02 00:00:00", some "2024-01-02 00:00:00"⟩)] :=
  C3_roundtrip _ (by decide) (by decide)

/-- Claim C4: remerging the same observation list at a second timestamp T2
leaves the record count and key sequence unchanged, and maps every record of
the first result to the same record with only `last_seen` refreshed (to T2
exactly for the addresses the observations touch). -/
theorem C4_idempotent_remerge (s : Store) (new_ips : List ObsEntry) (T1 T2 : String) :
    ((update_ip_records (update_ip_records s new_ips T1) new_ips T2).length
        = (update_ip_records s new_ips T1).length)
    ∧ skeys (update_ip_records (update_ip_records s new_ips T1) new_ips T2)
        = skeys (update_ip_records s new_ips T1)
    ∧ ∀ (a : String) (r : IPRecord),
        slookup (update_ip_records s new_ips T1) (some a) = some r →
        slookup (update_ip_records (update_ip_records s new_ips T1) new_ips T2)
            (some a)
          = some ⟨r.domain, r.first_seen,
              if obsHas new_ips a then some T2 else r.last_seen⟩ := by
  have hpres : ∀ e ∈ new_ips,
      hasKey (update_ip_records s new_ips T1) (some e.ip_address) = true :=
    fun e he => observed_hasKey_update T1 new_ips s e he
  exact ⟨length_update_of_all_present T2 new_ips _ hpres,
    skeys_update_of_all_present T2 new_ips _ hpres,
    fun a r h => slookup_update_of_present T2 new_ips _ a r h⟩

/-- Witness for C4 starting from the empty store. -/
theorem C4_witness :
    slookup (update_ip_records
        (update_ip_records [] [⟨"1.2.3.4", "a.example.com"⟩] "T1")
        [⟨"1.2.3.4", "a.example.com"⟩] "T2") (some "1.2.3.4")
      = some ⟨some "a.example.com", some "T1", some "T2"⟩ := by
  have h := (C4_idempotent_remerge [] [⟨"1.2.3.4", "a.example.com"⟩] "T1" "T2").2.2
    "1.2.3.4" ⟨some "a.example.com", some "T1", some "T1"⟩ rfl
  rw [show obsHas [(⟨"1.2.3.4", "a.example.com"⟩ : ObsEntry)] "1.2.3.4" = true from rfl]
    at h
  simpa using h

/-- Claim C5: a missing output file loads as the empty store with no error
(the single internally caught condition), while every other failure — a
failed fetch, or an error raised while reading an existing file — propagates
through the pipeline uncaught. -/
theorem C5_missing_file (now : String) :
    read_existing_ips none = .ok []
    ∧ (∀ (rows : List (List String)) (e : PyErr),
        read_rows rows = .error e → read_existing_ips (some rows) = .error e)
    ∧ (∀ (e : PyErr) (file : Option (List (List String))),
        process (.error e) file now = .error e)
    ∧ (∀ (new_ips : List ObsEntry) (rows : List (List String)) (e : PyErr),
        read_rows rows = .error e →
        process (.ok new_ips) (some rows) now = .error e) := by
  refine ⟨rfl, ?_, ?_, ?_⟩
  · intro rows e h
    show read_rows rows = _
    exact h
  · intro e file
    rfl
  · intro new_ips rows e h
    have hread : read_existing_ips (some rows) = .error e := h
    simp [process, hread]

/-- Witness for C5: a file whose header lacks the expected columns raises
`KeyError` from the load, and the same error aborts the whole pipeline. -/
theorem C5_witness :
    read_existing_ips (some [["foo"], ["bar"]]) = .error PyErr.keyError
    ∧ process (.ok [⟨"1.2.3.4", "a.example.com"⟩]) (some [["foo"], ["bar"]]) "T1"
        = .error PyErr.keyError :=
  ⟨(C5_missing_file "T1").2.1 [["foo"], ["bar"]] PyErr.keyError rfl,
   (C5_missing_file "T1").2.2.2 [⟨"1.2.3.4", "a.example.com"⟩]
     [["foo"], ["bar"]] PyErr.keyError rfl⟩

/-- Total length of a domain-to-addresses flattening. -/
theorem flatMap_pairs_length (m : List (String × List String)) :
    (m.flatMap fun p => p.2.map fun a => (Json.str a, Json.str p.1)).length
      = (m.map fun p => p.2.length).sum := by
  induction m with
  | nil => rfl
  | cons p t ih => simp [List.flatMap_cons, ih]

/-- Claim C6: on a provider mapping (unique domain keys), the flatten step
yields exactly one `(address, domain)` pair per occurrence of an address in a
domain's list, in order, with no deduplication across domains, so its length
is the sum of the lists' lengths. -/
theorem C6_flatten (m : List (String × List String)) (hnd : (m.map Prod.fst).Nodup) :
    json_flip_to_list (jsonOfResolve m)
      = .ok (m.flatMap fun p => p.2.map fun a => (Json.str a, Json.str p.1))
    ∧ (m.flatMap fun p => p.2.map fun a => (Json.str a, Json.str p.1)).length
      = (m.map fun p => p.2.length).sum :=
  ⟨json_flip_on_resolve m hnd, flatMap_pairs_length m⟩

/-- Witness for C6, with the same address listed under two domains: both
pairs appear and the length is 2 + 1. -/
theorem C6_witness :
    json_flip_to_list (jsonOfResolve [("d1.example.com", ["1.1.1.1", "2.2.2.2"]),
        ("d2.example.com", ["1.1.1.1"])])
      = .ok [(Json.str "1.1.1.1", Json.str "d1.example.com"),
             (Json.str "2.2.2.2", Json.str "d1.example.com"),
             (Json.str "1.1.1.1", Json.str "d2.example.com")]
    ∧ ([("d1.example.com", ["1.1.1.1", "2.2.2.2"]),
        ("d2.example.com", ["1.1.1.1"])].flatMap
          (fun p => p.2.map fun a => (Json.str a, Json.str p.1))).length = 3 := by
  have h := C6_flatten [("d1.example.com", ["1.1.1.1", "2.2.2.2"]),
    ("d2.example.com", ["1.1.1.1"])] (by decide)
  exact ⟨h.1, h.2⟩

/-- Is a JSON value an object (a Python mapping)? -/
def isObj : Json → Bool
  | .obj _ => true
  | _ => false

/-- Claim C7, counterexample: the claim asserts a failure whenever the
`"resolve"` value is not an object; but with `"resolve"` bound to the empty
array — not an object — the normalization succeeds, returning the empty
observation list: iterating an empty list simply produces nothing. -/
theorem C7_counterexample :
    isObj (Json.arr []) = false
    ∧ download_normalize (Json.obj [("resolve", Json.arr [])]) = .ok [] :=
  ⟨rfl, rfl⟩

/-- Claim C7 (amended): accessing `json_data["resolve"]` raises `KeyError`
(the code has no dedicated SchemaError) whenever the key is absent from the
top-level object; when the value is an object the access succeeds and
normalization proceeds on it; and a non-object `"resolve"` does not always
fail: the empty array flattens successfully to the empty list. -/
theorem C7_amended :
    (∀ kvs : List (String × Json), olookup kvs "resolve" = none →
      download_normalize (Json.obj kvs) = .error PyErr.keyError)
    ∧ (∀ (kvs : List (String × Json)) (m : List (String × Json)),
        olookup kvs "resolve" = some (Json.obj m) →
        download_normalize (Json.obj kvs) = json_flip_to_list (Json.obj m))
    ∧ download_normalize (Json.obj [("resolve", Json.arr [])]) = .ok [] := by
  refine ⟨?_, ?_, rfl⟩
  · intro kvs h
    have hsub : pySubscript (Json.obj kvs) (Json.str "resolve")
        = Except.error PyErr.keyError := by
      simp [pySubscript, h]
    show (match pySubscript (Json.obj kvs) (Json.str "resolve") with
      | Except.error e => Except.error e
      | Except.ok resolve => json_flip_to_list resolve) = Except.error PyErr.keyError
    rw [hsub]
  · intro kvs m h
    have hsub : pySubscript (Json.obj kvs) (Json.str "resolve")
        = Except.ok (Json.obj m) := by
      simp [pySubscript, h]
    show (match pySubscript (Json.obj kvs) (Json.str "resolve") with
      | Except.error e => Except.error e
      | Except.ok resolve => json_flip_to_list resolve) = json_flip_to_list (Json.obj m)
    rw [hsub]

/-- Witness for C7 (amended): a missing key raises `KeyError`; an object
value passes through to the flattening. -/
theorem C7_witness :
    download_normalize (Json.obj [("other", Json.null)]) = .error PyErr.keyError
    ∧ download_normalize (Json.obj [("resolve",
        Json.obj [("d1.example.com", Json.arr [Json.str "1.1.1.1"])])])
      = json_flip_to_list (Json.obj [("d1.example.com", Json.arr [Json.str "1.1.1.1"])]) :=
  ⟨C7_amended.1 [("other", Json.null)] rfl,
   C7_amended.2.1 [("resolve",
     Json.obj [("d1.example.com", Json.arr [Json.str "1.1.1.1"])])]
     [("d1.example.com", Json.arr [Json.str "1.1.1.1"])] rfl⟩

/-- Claim C8: if every timestamp already stored is at most `now` and every
record satisfies `first_seen <= last_seen`, then after a merge at `now`
every record still satisfies `first_seen <= last_seen`. -/
theorem C8_invariant_preserved (s : Store) (new_ips : List ObsEntry) (now : String)
    (hbound : ∀ p ∈ s, stampLE p.2 now = true)
    (hinv : ∀ p ∈ s, recLE p.2 = true) :
    ∀ p ∈ update_ip_records s new_ips now, recLE p.2 = true :=
  fun p hp =>
    (inv_update now new_ips s (fun q hq => ⟨hbound q hq, hinv q hq⟩) p hp).2

/-- Witness for C8: a store whose timestamps precede the merge time, checked
on the record the merge refreshes. -/
theorem C8_witness :
    recLE (⟨some "a.example.com", some "2024-01-01 00:00:00",
        some "2024-01-02 00:00:00"⟩ : IPRecord) = true :=
  C8_invariant_preserved
    [(some "1.2.3.4", ⟨some "a.example.com", some "2024-01-01 00:00:00",
        some "2024-01-01 08:00:00"⟩)]
    [⟨"1.2.3.4", "a.example.com"⟩] "2024-01-02 00:00:00"
    (by decide) (by decide)
    (some "1.2.3.4", ⟨some "a.example.com", some "2024-01-01 00:00:00",
        some "2024-01-02 00:00:00"⟩)
    (by decide)

/-- Claim C9, counterexample: the claim says a malformed row (wrong column
count) makes the load fail with a CorruptStoreError.  Instead a data row with
only one of the four columns is accepted silently: the load succeeds and the
missing fields default to `None`, exactly the default-`None` semantics of
`csv.DictReader`. -/
theorem C9_counterexample :
    read_rows [["ip_address", "domain", "first_seen", "last_seen"], ["1.2.3.4"]]
      = .ok [(some "1.2.3.4", ⟨none, none, none⟩)] := rfl

/-- Claim C9 (amended): with the standard header, loading never fails,
whatever the shape of the data rows; short rows are padded with `None` and
long rows have their surplus cells dropped, with no error of any kind. -/
theorem C9_amended (dataRows : List (List String)) :
    ∃ s, read_rows (fieldnames :: dataRows) = .ok s := by
  rcases readRows_fieldnames_isOk dataRows [] with ⟨s2, h⟩
  exact ⟨s2, h⟩

/-- Claim C10: when an address absent from the store occurs several times in
the observation list, the merged record carries the domain of the FIRST
occurrence; later occurrences hit the already-present branch, which only
rewrites `last_seen` and can never change the stored domain. -/
theorem C10_first_domain_wins (s : Store) (new_ips : List ObsEntry) (now : String)
    (a : String) (e : ObsEntry)
    (h1 : hasKey s (some a) = false)
    (h2 : new_ips.find? (fun x => x.ip_address = a) = some e) :
    slookup (update_ip_records s new_ips now) (some a)
      = some ⟨some e.domain, some now, some now⟩ := by
  have h := slookup_update_of_absent now new_ips s a h1
  rw [h2] at h
  exact h

/-- Witness for C10: two observations of the same address under different
domains; the first domain is the one stored. -/
theorem C10_witness :
    slookup (update_ip_records [] [⟨"1.2.3.4", "a.example.com"⟩,
        ⟨"1.2.3.4", "b.example.com"⟩] "T1") (some "1.2.3.4")
      = some ⟨some "a.example.com", some "T1", some "T1"⟩ :=
  C10_first_domain_wins [] [⟨"1.2.3.4", "a.example.com"⟩,
    ⟨"1.2.3.4", "b.example.com"⟩] "T1" "1.2.3.4"
    ⟨"1.2.3.4", "a.example.com"⟩ rfl rfl
